import Mathlib

/-!
# Verification of the webview message bridge

This development embeds, in Lean, the request/response message bridge of the
`vscode-plugin-new-project` repository:

* the Correlator (`invoke` in `webview-ui/src/utilities/vscode.ts`), which
  turns the one-way `postMessage` transport into awaitable calls matched by
  correlation tokens;
* the Dispatcher (the `webview.onDidReceiveMessage` listener installed by
  `CreateProjectPanel._setWebviewMessageListener` in
  `src/panels/CreateProjectPanel.ts`), which looks up a handler by command
  name, invokes it with the message's `data` as positional arguments, and
  posts a response carrying the request's `callback` token;
* the local-storage fallback of `getState`/`setState` in `vscode.ts`,
  including a model of the platform's `JSON.stringify`/`JSON.parse` pair.

JavaScript values that cross the bridge are modelled by the inductive type
`Json` (numbers idealised as integers; the floating-point formatting of the
platform is outside the model).  The JS distinction between a present value
and `undefined` is modelled with `Option`.
-/

/-- JSON-serializable values.  Numbers are idealised as integers; object
fields keep insertion order, as JavaScript objects do for string keys. -/
inductive Json where
  | null : Json
  | bool (b : Bool) : Json
  | num (n : Int) : Json
  | str (s : String) : Json
  | arr (elems : List Json) : Json
  | obj (fields : List (String × Json)) : Json

/-- A message on the webview channel, as destructured by the dispatcher:
`const { command, data = [], callback } = message`.  `data = none` models an
absent (`undefined`) `data` field, `callback = none` an absent `callback`. -/
structure Message where
  command : String
  data : Option (List Json)
  callback : Option String

/-- JavaScript truthiness of the destructured `callback` value as used by
`if (callback)`: `undefined` and the empty string are falsy, every other
string is truthy. -/
def callbackTruthy : Option String → Bool
  | none => false
  | some s => s ≠ ""

/-- The handler registry built by `_setWebviewMessageListener`:
`const map = new Map<string, (...args: any[]) => any>()`.  Handlers are
modelled as functions from their positional-argument list to their awaited
result. -/
def Registry : Type := String → Option (List Json → Json)

/-- The observable outcome of dispatching one inbound message:
the error thrown (if any), the handler invocations performed (command name
and exact positional arguments), and the messages posted back over
`this._panel.webview.postMessage`. -/
structure DispatchResult where
  error : Option String
  calls : List (String × List Json)
  posts : List Message

/-- The dispatcher body from `CreateProjectPanel._setWebviewMessageListener`:

```
const { command, data = [], callback } = message
if (!map.has(command)) { throw new Error(`找不到命令 ${command}`) }
const res = await map.get(command)!(...data)
if (callback) { this._panel.webview.postMessage({ command: callback, data: [res] }) }
```
-/
def dispatch (map : Registry) (m : Message) : DispatchResult :=
  let data := m.data.getD []
  match map m.command with
  | none =>
      { error := some ("找不到命令 " ++ m.command), calls := [], posts := [] }
  | some handler =>
      let res := handler data
      if callbackTruthy m.callback then
        { error := none
          calls := [(m.command, data)]
          posts := [{ command := m.callback.getD "", data := some [res], callback := none }] }
      else
        { error := none, calls := [(m.command, data)], posts := [] }

/-! ## The Correlator (`invoke` in `vscode.ts`)

`invoke` generates the correlation token `Date.now() + '_' + Math.random()`.
`Date.now()` is an integer millisecond count whose JS string rendering is its
decimal digits; `Math.random()`'s rendering is taken as an arbitrary string
parameter.  We model the decimal rendering with a fuel-indexed digit
function so that it evaluates by kernel reduction. -/

/-- The decimal digit character for `d < 10` (other inputs map to `'*'`,
which never occurs in use). -/
def digitChar : Nat → Char
  | 0 => '0' | 1 => '1' | 2 => '2' | 3 => '3' | 4 => '4'
  | 5 => '5' | 6 => '6' | 7 => '7' | 8 => '8' | 9 => '9'
  | _ => '*'

/-- Fuel-indexed helper producing the decimal digits of `n` before `acc`.
Correct whenever `n < fuel`. -/
def natToDigitsAux : Nat → Nat → List Char → List Char
  | 0, _, acc => acc
  | fuel + 1, n, acc =>
      if n < 10 then digitChar n :: acc
      else natToDigitsAux fuel (n / 10) (digitChar (n % 10) :: acc)

/-- Decimal digits of a natural number, most significant first — the JS
string rendering of a nonnegative integer-valued number. -/
def natToDigits (n : Nat) : List Char := natToDigitsAux (n + 1) n []

/-- The numeric value encoded by a digit character. -/
def charToDigit (c : Char) : Nat := c.toNat - 48

/-- Decimal decoding, most significant digit first. -/
def digitsToNat (ds : List Char) : Nat := ds.foldl (fun acc c => acc * 10 + charToDigit c) 0

/-- The correlation token `Date.now() + '_' + Math.random()` of `invoke`,
as a function of the clock sample and the rendered random sample. -/
def mkId (time : Nat) (rand : String) : String :=
  ⟨natToDigits time⟩ ++ "_" ++ rand

/-- The correlator-side state observable in the model: the tokens of the
listeners currently attached via `window.addEventListener('message', …)`,
the messages posted to the channel, and the settled calls as pairs of token
and resolution value (`none` being JS `undefined`). -/
structure BridgeState where
  listeners : List String
  posted : List Message
  resolved : List (String × Option Json)

/-- The empty initial bridge state. -/
def BridgeState.initial : BridgeState := { listeners := [], posted := [], resolved := [] }

/-- The argument object of `invoke(options)`: `command`, optional `default`
(resolved with when no host channel exists; `none` models an absent field,
i.e. resolving with `undefined`), optional `args`. -/
structure InvokeOptions where
  command : String
  dflt : Option Json
  args : Option (List Json)

/-- What happened to the promise returned by `invoke`: resolved immediately
(degraded path) or left pending under a correlation token. -/
inductive InvokeOutcome where
  | immediate (value : Option Json)
  | pending (token : String)

/-- The body of `VSCodeAPIWrapper.invoke`:

```
if (typeof acquireVsCodeApi !== 'function') { resolve(options.default); return }
const id = Date.now() + '_' + Math.random()
window.addEventListener('message', listener)   // listener keyed by id
vscode.postMessage({ command: options.command, data: options.args, callback: id })
```

`hasAcquire` is the truth of `typeof acquireVsCodeApi === 'function'` at the
moment of the call (the code re-tests the global here; it does not read the
memoized `this.vsCodeApi`). -/
def invoke (hasAcquire : Bool) (opts : InvokeOptions) (time : Nat) (rand : String)
    (st : BridgeState) : BridgeState × InvokeOutcome :=
  if !hasAcquire then
    (st, .immediate opts.dflt)
  else
    let id := mkId time rand
    let req : Message := { command := opts.command, data := opts.args, callback := some id }
    ({ st with
        listeners := st.listeners ++ [id]
        posted := st.posted ++ [req] },
     .pending id)

/-- Delivery of one inbound `message` event to the attached listeners. Each
listener compares `data.command === id`; on a match it resolves its promise
with `data.data[0]` and removes itself; on a mismatch it does nothing.
(`data.data[0]` is modelled as the head of the `data` array; a matched
response with an absent `data` field would throw in JS and is outside the
claims' scope.) -/
def deliver (st : BridgeState) (m : Message) : BridgeState :=
  { st with
      listeners := st.listeners.filter (fun t => t ≠ m.command)
      resolved := st.resolved ++
        (st.listeners.filter (fun t => t = m.command)).map
          (fun t => (t, (m.data.getD []).head?)) }

/-! ## The Transport Adapter's memoized handle

`VSCodeAPIWrapper`'s constructor runs
`if (typeof acquireVsCodeApi === 'function') { this.vsCodeApi = acquireVsCodeApi() }`;
the acquired handle is modelled as `Unit`. -/

/-- The `vsCodeApi` field after construction, as a function of whether
`acquireVsCodeApi` was a function at construction time. -/
def constructVsCodeApi (hasAcquireAtConstruction : Bool) : Option Unit :=
  if hasAcquireAtConstruction then some () else none

/-- The branch taken by `postMessage` (and by `getState`/`setState`):
`if (this.vsCodeApi) …` — it consults the memoized field. -/
def usesChannelViaField (api : Option Unit) : Bool := api.isSome

/-! ## Model of the platform JSON pair (`JSON.stringify` / `JSON.parse`)

The fallback branches of `getState`/`setState` call the platform's JSON
functions on `localStorage` contents.  These are host primitives, not code
of this repository; they are modelled over `Json`: `stringifyChars` emits
the canonical whitespace-free rendering the platform produces (escaping
quote, backslash and the common control characters; numbers idealised as
integers), and the parser reads back exactly that canonical grammar (the
platform's parser also accepts surrounding whitespace, which `setState`
never stores). -/

/-- String escaping of `JSON.stringify` for one character. -/
def escapeChar (c : Char) : List Char :=
  if c = '"' then ['\\', '"']
  else if c = '\\' then ['\\', '\\']
  else if c = '\n' then ['\\', 'n']
  else if c = '\t' then ['\\', 't']
  else if c = '\r' then ['\\', 'r']
  else [c]

/-- String escaping of `JSON.stringify`, character by character. -/
def escapeChars : List Char → List Char
  | [] => []
  | c :: cs => escapeChar c ++ escapeChars cs

/-- The decimal rendering of an integer JSON number. -/
def intToDigits (n : Int) : List Char :=
  if n < 0 then '-' :: natToDigits n.natAbs else natToDigits n.toNat

/-- The rendering of the literal `null`. -/
def litNull : List Char := ['n', 'u', 'l', 'l']

/-- The rendering of the literal `true`. -/
def litTrue : List Char := ['t', 'r', 'u', 'e']

/-- The rendering of the literal `false`. -/
def litFalse : List Char := ['f', 'a', 'l', 's', 'e']

mutual

/-- `JSON.stringify`, at the character-list level. -/
def stringifyChars : Json → List Char
  | .null => litNull
  | .bool true => litTrue
  | .bool false => litFalse
  | .num n => intToDigits n
  | .str s => '"' :: (escapeChars s.data ++ ['"'])
  | .arr xs => '[' :: (stringifyItems xs ++ [']'])
  | .obj kvs => '{' :: (stringifyFields kvs ++ ['}'])

/-- Comma-separated renderings of array elements. -/
def stringifyItems : List Json → List Char
  | [] => []
  | [x] => stringifyChars x
  | x :: y :: xs => stringifyChars x ++ ',' :: stringifyItems (y :: xs)

/-- Comma-separated `"key":value` renderings of object fields. -/
def stringifyFields : List (String × Json) → List Char
  | [] => []
  | [(k, v)] => '"' :: (escapeChars k.data ++ '"' :: ':' :: stringifyChars v)
  | (k, v) :: e :: kvs =>
      ('"' :: (escapeChars k.data ++ '"' :: ':' :: stringifyChars v)) ++
        ',' :: stringifyFields (e :: kvs)

end

/-- `JSON.stringify` producing a string. -/
def jsonStringify (v : Json) : String := ⟨stringifyChars v⟩

/-- Inverse of `escapeChar` on the character following a backslash. -/
def unescapeChar (c : Char) : Option Char :=
  if c = '"' then some '"'
  else if c = '\\' then some '\\'
  else if c = 'n' then some '\n'
  else if c = 't' then some '\t'
  else if c = 'r' then some '\r'
  else none

/-- Reads a string body up to its closing unescaped quote, undoing
escapes; returns the characters read and the remaining input. -/
def parseStringBody : List Char → Option (List Char × List Char)
  | [] => none
  | c :: cs =>
      if c = '\\' then
        match cs with
        | [] => none
        | e :: cs2 =>
            match unescapeChar e, parseStringBody cs2 with
            | some u, some (s, r) => some (u :: s, r)
            | _, _ => none
      else if c = '"' then some ([], cs)
      else
        match parseStringBody cs with
        | some (s, r) => some (c :: s, r)
        | none => none

/-- Maximal munch of leading decimal digits. -/
def takeDigits : List Char → List Char × List Char
  | [] => ([], [])
  | c :: cs =>
      if c.isDigit then
        let p := takeDigits cs
        (c :: p.1, p.2)
      else ([], c :: cs)

/-- Parses an integer number: optional minus sign, then a nonempty digit
run (maximal munch). -/
def parseNum (cs : List Char) : Option (Json × List Char) :=
  if cs.head? = some '-' then
    let p := takeDigits cs.tail
    if p.1 = [] then none else some (.num (-(digitsToNat p.1 : Int)), p.2)
  else
    let p := takeDigits cs
    if p.1 = [] then none else some (.num ((digitsToNat p.1 : Int)), p.2)

mutual

/-- Fuel-indexed recursive-descent reader of one JSON value. -/
def parseVal : Nat → List Char → Option (Json × List Char)
  | 0, _ => none
  | fuel + 1, cs =>
      match cs with
      | [] => none
      | c :: cs2 =>
          if c = 'n' then
            if cs2.take 3 = ['u', 'l', 'l'] then some (.null, cs2.drop 3) else none
          else if c = 't' then
            if cs2.take 3 = ['r', 'u', 'e'] then some (.bool true, cs2.drop 3) else none
          else if c = 'f' then
            if cs2.take 4 = ['a', 'l', 's', 'e'] then some (.bool false, cs2.drop 4) else none
          else if c = '"' then
            match parseStringBody cs2 with
            | some (s, rest) => some (.str ⟨s⟩, rest)
            | none => none
          else if c = '[' then
            if cs2.head? = some ']' then some (.arr [], cs2.tail)
            else
              match parseItems fuel cs2 with
              | some (xs, rest) => some (.arr xs, rest)
              | none => none
          else if c = '{' then
            if cs2.head? = some '}' then some (.obj [], cs2.tail)
            else
              match parseFields fuel cs2 with
              | some (kvs, rest) => some (.obj kvs, rest)
              | none => none
          else parseNum (c :: cs2)

/-- Reads the elements of a nonempty array body up to `']'`. -/
def parseItems : Nat → List Char → Option (List Json × List Char)
  | 0, _ => none
  | fuel + 1, cs =>
      match parseVal fuel cs with
      | none => none
      | some (v, rest) =>
          match rest with
          | ',' :: rest2 =>
              match parseItems fuel rest2 with
              | some (vs, rest3) => some (v :: vs, rest3)
              | none => none
          | ']' :: rest2 => some ([v], rest2)
          | _ => none

/-- Reads the fields of a nonempty object body up to `'}'`. -/
def parseFields : Nat → List Char → Option (List (String × Json) × List Char)
  | 0, _ => none
  | fuel + 1, cs =>
      match cs with
      | '"' :: cs2 =>
          match parseStringBody cs2 with
          | none => none
          | some (k, rest) =>
              match rest with
              | ':' :: rest2 =>
                  match parseVal fuel rest2 with
                  | none => none
                  | some (v, rest3) =>
                      match rest3 with
                      | ',' :: rest4 =>
                          match parseFields fuel rest4 with
                          | some (kvs, rest5) => some ((⟨k⟩, v) :: kvs, rest5)
                          | none => none
                      | '}' :: rest4 => some ([(⟨k⟩, v)], rest4)
                      | _ => none
              | _ => none
      | _ => none

end

/-- `JSON.parse`: reads one value and requires the whole input consumed.
The fuel `length + 1` dominates the reader's needs (see `jsize_le_length`). -/
def jsonParse (s : String) : Option Json :=
  match parseVal (s.data.length + 1) s.data with
  | some (v, []) => some v
  | _ => none

mutual

/-- Fuel measure of the reader: `parseVal fuel` succeeds on the rendering
of `v` whenever `jsize v ≤ fuel`. -/
def jsize : Json → Nat
  | .null => 1
  | .bool _ => 1
  | .num _ => 1
  | .str _ => 1
  | .arr xs => 1 + jsizeItems xs
  | .obj kvs => 1 + jsizeFields kvs

/-- Fuel measure for `parseItems`. -/
def jsizeItems : List Json → Nat
  | [] => 0
  | x :: xs => 1 + max (jsize x) (jsizeItems xs)

/-- Fuel measure for `parseFields`. -/
def jsizeFields : List (String × Json) → Nat
  | [] => 0
  | (_, v) :: kvs => 1 + max (jsize v) (jsizeFields kvs)

end

/-! ## The local persistent key-value store and `getState`/`setState`

`localStorage` is the platform's string-keyed map of strings. -/

/-- Web Storage: a string-keyed map of strings. -/
def LocalStorage : Type := String → Option String

/-- `localStorage.setItem(key, value)`. -/
def LocalStorage.setItem (ls : LocalStorage) (key value : String) : LocalStorage :=
  fun k => if k = key then some value else ls k

/-- `localStorage.getItem(key)` (`none` models JS `null`). -/
def LocalStorage.getItem (ls : LocalStorage) (key : String) : Option String := ls key

/-- The fallback branch of `setState` (the `else` of `if (this.vsCodeApi)`):
`localStorage.setItem(key, JSON.stringify(newState))`. -/
def setStateFallback (ls : LocalStorage) (key : String) (newState : Json) : LocalStorage :=
  ls.setItem key (jsonStringify newState)

/-- The fallback branch of `getState`:
`const state = localStorage.getItem(key); return state ? JSON.parse(state) : undefined`.
A falsy string — `null` from `getItem`, or `""` — yields `undefined`
(`.ok none`); otherwise `JSON.parse` returns a value or throws. -/
def getStateFallback (ls : LocalStorage) (key : String) : Except String (Option Json) :=
  match ls.getItem key with
  | none => .ok none
  | some s =>
      if s = "" then .ok none
      else
        match jsonParse s with
        | some v => .ok (some v)
        | none => .error "SyntaxError"

/-- Result of a `getState` call: a resolved value, a pending round trip, or
a thrown parse error. -/
inductive StateCallResult where
  | value (v : Option Json)
  | pending (token : String)
  | thrown (e : String)

/-- `VSCodeAPIWrapper.getState`: with a host handle, delegate to
`invoke({command: 'getState', args: [key]})`; otherwise read the local
store.  `api` is the memoized `this.vsCodeApi`; `hasAcquire` the presence
of `acquireVsCodeApi` at call time (consulted only inside `invoke`). -/
def getState (api : Option Unit) (hasAcquire : Bool) (time : Nat) (rand : String)
    (bst : BridgeState) (ls : LocalStorage) (key : String) :
    BridgeState × StateCallResult :=
  match api with
  | some _ =>
      let r := invoke hasAcquire ⟨"getState", none, some [Json.str key]⟩ time rand bst
      (r.1,
        match r.2 with
        | .immediate v => .value v
        | .pending t => .pending t)
  | none =>
      (bst,
        match getStateFallback ls key with
        | .ok v => .value v
        | .error e => .thrown e)

/-- `VSCodeAPIWrapper.setState`: with a host handle, delegate to
`invoke({command: 'setState', args: [key, newState]})`; otherwise write the
local store. -/
def setState (api : Option Unit) (hasAcquire : Bool) (time : Nat) (rand : String)
    (bst : BridgeState) (ls : LocalStorage) (key : String) (newState : Json) :
    BridgeState × LocalStorage :=
  match api with
  | some _ =>
      ((invoke hasAcquire ⟨"setState", none, some [Json.str key, newState]⟩ time rand bst).1,
        ls)
  | none => (bst, setStateFallback ls key newState)

/-! ## Basic evaluation lemmas -/

theorem dispatch_unregistered (map : Registry) (m : Message) (h : map m.command = none) :
    dispatch map m = { error := some ("找不到命令 " ++ m.command), calls := [], posts := [] } := by
  simp [dispatch, h]

theorem dispatch_registered_truthy (map : Registry) (m : Message) (f : List Json → Json)
    (h : map m.command = some f) (hcb : callbackTruthy m.callback = true) :
    dispatch map m =
      { error := none
        calls := [(m.command, m.data.getD [])]
        posts := [{ command := m.callback.getD "", data := some [f (m.data.getD [])],
                    callback := none }] } := by
  simp [dispatch, h, hcb]

theorem dispatch_registered_falsy (map : Registry) (m : Message) (f : List Json → Json)
    (h : map m.command = some f) (hcb : callbackTruthy m.callback = false) :
    dispatch map m = { error := none, calls := [(m.command, m.data.getD [])], posts := [] } := by
  simp [dispatch, h, hcb]

theorem invoke_hasAcquire (opts : InvokeOptions) (time : Nat) (rand : String)
    (st : BridgeState) :
    invoke true opts time rand st =
      ({ st with
          listeners := st.listeners ++ [mkId time rand]
          posted := st.posted ++
            [{ command := opts.command, data := opts.args, callback := some (mkId time rand) }] },
       .pending (mkId time rand)) := by
  simp [invoke]

/-! ## Digits: correctness of the fuel-indexed rendering -/

theorem natToDigitsAux_irrel (n : Nat) : ∀ fuel gfuel acc, n < fuel → n < gfuel →
    natToDigitsAux fuel n acc = natToDigitsAux gfuel n acc := by
  induction n using Nat.strong_induction_on with
  | _ n ih =>
    intro fuel gfuel acc hf hg
    match fuel, gfuel with
    | f + 1, g + 1 =>
      by_cases h10 : n < 10
      · simp [natToDigitsAux, h10]
      · have hdiv : n / 10 < n := Nat.div_lt_self (by omega) (by omega)
        simp only [natToDigitsAux, h10, if_false]
        exact ih (n / 10) hdiv f g _ (by omega) (by omega)

theorem natToDigitsAux_acc (n : Nat) : ∀ fuel acc, n < fuel →
    natToDigitsAux fuel n acc = natToDigitsAux fuel n [] ++ acc := by
  induction n using Nat.strong_induction_on with
  | _ n ih =>
    intro fuel acc hf
    match fuel with
    | f + 1 =>
      by_cases h10 : n < 10
      · simp [natToDigitsAux, h10]
      · have hdiv : n / 10 < n := Nat.div_lt_self (by omega) (by omega)
        have hdivf : n / 10 < f := by omega
        simp only [natToDigitsAux, h10, if_false]
        rw [ih (n / 10) hdiv f _ hdivf, ih (n / 10) hdiv f [digitChar (n % 10)] hdivf,
          List.append_assoc]
        rfl

theorem natToDigitsAux_step (fuel n : Nat) (acc : List Char) (h : ¬n < 10) :
    natToDigitsAux (fuel + 1) n acc = natToDigitsAux fuel (n / 10) (digitChar (n % 10) :: acc) := by
  simp [natToDigitsAux, h]

/-- The defining recurrence of the decimal rendering. -/
theorem natToDigits_eq (n : Nat) :
    natToDigits n =
      if n < 10 then [digitChar n] else natToDigits (n / 10) ++ [digitChar (n % 10)] := by
  by_cases h10 : n < 10
  · simp [natToDigits, natToDigitsAux, h10]
  · have hdiv : n / 10 < n := Nat.div_lt_self (by omega) (by omega)
    rw [if_neg h10]
    show natToDigitsAux (n + 1) n [] = natToDigits (n / 10) ++ [digitChar (n % 10)]
    rw [natToDigitsAux_step n n [] h10,
      natToDigitsAux_irrel (n / 10) n (n / 10 + 1) _ (by omega) (by omega),
      natToDigitsAux_acc (n / 10) (n / 10 + 1) _ (by omega)]
    rfl

theorem digitChar_isDigit (d : Nat) (h : d < 10) : (digitChar d).isDigit = true := by
  interval_cases d <;> decide

theorem natToDigits_ne_nil (n : Nat) : natToDigits n ≠ [] := by
  rw [natToDigits_eq]
  by_cases h10 : n < 10 <;> simp [h10]

theorem natToDigits_all_digits (n : Nat) : ∀ c ∈ natToDigits n, c.isDigit = true := by
  induction n using Nat.strong_induction_on with
  | _ n ih =>
    intro c hc
    rw [natToDigits_eq] at hc
    by_cases h10 : n < 10
    · simp [h10] at hc
      subst hc
      exact digitChar_isDigit n h10
    · have hdiv : n / 10 < n := Nat.div_lt_self (by omega) (by omega)
      simp [h10] at hc
      rcases hc with hc | hc
      · exact ih (n / 10) hdiv c hc
      · subst hc
        exact digitChar_isDigit (n % 10) (Nat.mod_lt _ (by omega))

theorem charToDigit_digitChar (d : Nat) (h : d < 10) : charToDigit (digitChar d) = d := by
  interval_cases d <;> decide

theorem digitsToNat_append_one (ds : List Char) (c : Char) :
    digitsToNat (ds ++ [c]) = digitsToNat ds * 10 + charToDigit c := by
  simp [digitsToNat, List.foldl_append]

theorem digitsToNat_natToDigits (n : Nat) : digitsToNat (natToDigits n) = n := by
  induction n using Nat.strong_induction_on with
  | _ n ih =>
    rw [natToDigits_eq]
    by_cases h10 : n < 10
    · simp [h10, digitsToNat, charToDigit_digitChar n h10]
    · have hdiv : n / 10 < n := Nat.div_lt_self (by omega) (by omega)
      simp only [h10, if_false]
      rw [digitsToNat_append_one, ih (n / 10) hdiv,
        charToDigit_digitChar (n % 10) (Nat.mod_lt _ (by omega))]
      omega

theorem natToDigits_injective : Function.Injective natToDigits := by
  intro a b h
  have := digitsToNat_natToDigits a
  rw [h, digitsToNat_natToDigits] at this
  omega

theorem natToDigits_no_underscore (n : Nat) : ∀ c ∈ natToDigits n, c ≠ '_' := by
  intro c hc
  have := natToDigits_all_digits n c hc
  intro hcu
  subst hcu
  simp [Char.isDigit] at this

/-- Splitting a list at its first `'_'` is unambiguous when the prefix is
underscore-free. -/
theorem underscore_split (xs : List Char) : ∀ us ys vs : List Char,
    (∀ c ∈ xs, c ≠ '_') → (∀ c ∈ us, c ≠ '_') →
    xs ++ '_' :: ys = us ++ '_' :: vs → xs = us ∧ ys = vs := by
  induction xs with
  | nil =>
    intro us ys vs _ hus h
    match us with
    | [] => simpa using h
    | u :: us' =>
      simp at h
      exact absurd h.1.symm (hus u (by simp))
  | cons x xs' ih =>
    intro us ys vs hxs hus h
    match us with
    | [] =>
      simp at h
      exact absurd h.1 (hxs x (by simp))
    | u :: us' =>
      simp at h
      obtain ⟨hxu, hrest⟩ := h
      obtain ⟨h1, h2⟩ := ih us' ys vs (fun c hc => hxs c (by simp [hc]))
        (fun c hc => hus c (by simp [hc])) hrest
      subst hxu
      exact ⟨by rw [h1], h2⟩

/-- Tokens built from distinct (clock, random) sample pairs are distinct. -/
theorem mkId_injective (t t' : Nat) (r r' : String) (h : mkId t r = mkId t' r') :
    t = t' ∧ r = r' := by
  have hdata : natToDigits t ++ '_' :: r.data = natToDigits t' ++ '_' :: r'.data := by
    have : (mkId t r).data = (mkId t' r').data := by rw [h]
    simpa [mkId, String.data_append] using this
  obtain ⟨h1, h2⟩ := underscore_split (natToDigits t) (natToDigits t') r.data r'.data
    (natToDigits_no_underscore t) (natToDigits_no_underscore t') hdata
  refine ⟨natToDigits_injective h1, ?_⟩
  cases r with
  | mk d =>
    cases r' with
    | mk d' =>
      have h2' : d = d' := h2
      rw [h2']

theorem mkId_ne_empty (t : Nat) (r : String) : mkId t r ≠ "" := by
  intro h
  have hd : (mkId t r).data = ("" : String).data := by rw [h]
  rw [mkId] at hd
  simp [String.data_append] at hd

/-! ## Claims about the Dispatcher -/

/-- C2: for every command `c` with a registered handler and every argument
sequence `a`, dispatching `{command: c, data: a, callback: t}` (with `t` a
non-empty token) invokes the handler exactly once with exactly the elements
of `a` as positional arguments and posts back exactly one message
`{command: t, data: [result]}`. -/
theorem claim_C2_dispatch_invokes_and_responds (map : Registry) (c t : String)
    (a : List Json) (f : List Json → Json) (hreg : map c = some f) (ht : t ≠ "") :
    dispatch map { command := c, data := some a, callback := some t } =
      { error := none
        calls := [(c, a)]
        posts := [{ command := t, data := some [f a], callback := none }] } := by
  simp [dispatch, hreg, callbackTruthy, ht]

/-- Witness for C2 at a concrete registry, argument list and token. -/
theorem claim_C2_witness :
    dispatch (fun s => if s = "hello" then some Json.arr else none)
        { command := "hello", data := some [Json.num 0], callback := some "cb1" } =
      { error := none
        calls := [("hello", [Json.num 0])]
        posts := [{ command := "cb1", data := some [Json.arr [Json.num 0]],
                    callback := none }] } :=
  claim_C2_dispatch_invokes_and_responds _ "hello" "cb1" [Json.num 0] Json.arr
    (by simp) (by decide)

/-- C3: for every command `c` with no registered handler, dispatch raises an
error whose text names `c`, invokes no handler, and posts no response,
whatever the `data` and `callback` fields of the message were. -/
theorem claim_C3_unknown_command_raises (map : Registry) (c : String)
    (d : Option (List Json)) (cb : Option String) (h : map c = none) :
    dispatch map { command := c, data := d, callback := cb } =
      { error := some ("找不到命令 " ++ c), calls := [], posts := [] } := by
  simp [dispatch, h]

/-- Witness for C3 at the empty registry, with a callback token present. -/
theorem claim_C3_witness :
    dispatch (fun _ => none) { command := "nope", data := none, callback := some "cb" } =
      { error := some ("找不到命令 " ++ "nope"), calls := [], posts := [] } :=
  claim_C3_unknown_command_raises (fun _ => none) "nope" none (some "cb") rfl

/-- C7: a request with an absent or empty-string `callback` still invokes the
handler exactly once, but the transport sees no outgoing message. -/
theorem claim_C7_falsy_callback_no_post (map : Registry) (c : String)
    (d : Option (List Json)) (f : List Json → Json) (hreg : map c = some f) :
    dispatch map { command := c, data := d, callback := none } =
      { error := none, calls := [(c, d.getD [])], posts := [] } ∧
    dispatch map { command := c, data := d, callback := some "" } =
      { error := none, calls := [(c, d.getD [])], posts := [] } := by
  constructor <;> simp [dispatch, hreg, callbackTruthy]

/-- Witness for C7 at a concrete registry, for both falsy callback shapes. -/
theorem claim_C7_witness :
    dispatch (fun s => if s = "hello" then some Json.arr else none)
        { command := "hello", data := some [Json.str "hi"], callback := none } =
      { error := none, calls := [("hello", [Json.str "hi"])], posts := [] } ∧
    dispatch (fun s => if s = "hello" then some Json.arr else none)
        { command := "hello", data := some [Json.str "hi"], callback := some "" } =
      { error := none, calls := [("hello", [Json.str "hi"])], posts := [] } :=
  claim_C7_falsy_callback_no_post _ "hello" (some [Json.str "hi"]) Json.arr (by simp)

/-- C10: a message with no `data` field is dispatched as if `data` were the
empty sequence: the handler runs with zero arguments and, the callback being
non-empty, a response is still posted. -/
theorem claim_C10_absent_data_empty_args (map : Registry) (c t : String)
    (f : List Json → Json) (hreg : map c = some f) (ht : t ≠ "") :
    dispatch map { command := c, data := none, callback := some t } =
      { error := none
        calls := [(c, [])]
        posts := [{ command := t, data := some [f []], callback := none }] } := by
  simp [dispatch, hreg, callbackTruthy, ht]

/-- Witness for C10 at a concrete registry and token. -/
theorem claim_C10_witness :
    dispatch (fun s => if s = "hello" then some Json.arr else none)
        { command := "hello", data := none, callback := some "cb9" } =
      { error := none
        calls := [("hello", [])]
        posts := [{ command := "cb9", data := some [Json.arr []], callback := none }] } :=
  claim_C10_absent_data_empty_args _ "hello" "cb9" Json.arr (by simp) (by decide)

/-! ## Claims about the Correlator -/

/-- C4: `invoke` issued when no host channel is present resolves immediately
with the caller-supplied default and performs no channel write: the bridge
state — listeners and posted messages alike — is unchanged. -/
theorem claim_C4_degraded_default (opts : InvokeOptions) (time : Nat) (rand : String)
    (st : BridgeState) :
    invoke false opts time rand st = (st, .immediate opts.dflt) := by
  simp [invoke]

/-- C6: two concurrent in-flight invokes with distinct tokens settle
independently; delivering the response for the second-issued token `B`
resolves only `B`'s waiter, detaches only `B`'s listener, and leaves the
waiter for `A` pending with its listener attached — matching is by token
equality alone, so settlement order need not follow issuance order. -/
theorem claim_C6_waiter_independence (st0 : BridgeState) (o1 o2 : InvokeOptions)
    (t1 t2 : Nat) (r1 r2 : String) (v : Json)
    (hAB : mkId t1 r1 ≠ mkId t2 r2) (hB : mkId t2 r2 ∉ st0.listeners) :
    (deliver (invoke true o2 t2 r2 (invoke true o1 t1 r1 st0).1).1
        { command := mkId t2 r2, data := some [v], callback := none }).listeners =
      st0.listeners ++ [mkId t1 r1] ∧
    (deliver (invoke true o2 t2 r2 (invoke true o1 t1 r1 st0).1).1
        { command := mkId t2 r2, data := some [v], callback := none }).resolved =
      st0.resolved ++ [(mkId t2 r2, some v)] := by
  constructor <;> simp [invoke, deliver, List.filter_append, hAB] <;>
    exact fun a ha h => hB (h ▸ ha)

/-- Witness for C6: two concrete invokes, response delivered for the second
token first. -/
theorem claim_C6_witness :
    (deliver (invoke true ⟨"selectPath", none, some []⟩ 0 "0.2"
        (invoke true ⟨"getState", none, some [Json.str "theme"]⟩ 0 "0.1"
          BridgeState.initial).1).1
        { command := mkId 0 "0.2", data := some [Json.str "dark"], callback := none }).listeners =
      BridgeState.initial.listeners ++ [mkId 0 "0.1"] ∧
    (deliver (invoke true ⟨"selectPath", none, some []⟩ 0 "0.2"
        (invoke true ⟨"getState", none, some [Json.str "theme"]⟩ 0 "0.1"
          BridgeState.initial).1).1
        { command := mkId 0 "0.2", data := some [Json.str "dark"], callback := none }).resolved =
      BridgeState.initial.resolved ++ [(mkId 0 "0.2", some (Json.str "dark"))] :=
  claim_C6_waiter_independence BridgeState.initial ⟨"getState", none, some [Json.str "theme"]⟩
    ⟨"selectPath", none, some []⟩ 0 0 "0.1" "0.2" (Json.str "dark")
    (by decide) (by decide)

/-- C1: round trip through the bridge.  On the host-channel path, `invoke`
leaves the promise pending under its token and posts the request
`{command, data: args, callback: token}`; dispatching that request runs the
registered handler on exactly the arguments and posts `{command: token,
data: [result]}`; delivering that response resolves the caller's waiter with
exactly the handler's return value (`data[0]`) and detaches its listener —
for every JSON-serializable result, nested containers, `null`, `0` and `""`
included. -/
theorem claim_C1_round_trip (map : Registry) (c : String) (a : List Json)
    (dflt : Option Json) (f : List Json → Json) (time : Nat) (rand : String)
    (st0 : BridgeState) (hreg : map c = some f)
    (hfresh : mkId time rand ∉ st0.listeners) :
    (invoke true ⟨c, dflt, some a⟩ time rand st0).2 = .pending (mkId time rand) ∧
    (invoke true ⟨c, dflt, some a⟩ time rand st0).1.posted =
      st0.posted ++ [{ command := c, data := some a, callback := some (mkId time rand) }] ∧
    dispatch map { command := c, data := some a, callback := some (mkId time rand) } =
      { error := none
        calls := [(c, a)]
        posts := [{ command := mkId time rand, data := some [f a], callback := none }] } ∧
    (deliver (invoke true ⟨c, dflt, some a⟩ time rand st0).1
        { command := mkId time rand, data := some [f a], callback := none }).resolved =
      st0.resolved ++ [(mkId time rand, some (f a))] ∧
    (deliver (invoke true ⟨c, dflt, some a⟩ time rand st0).1
        { command := mkId time rand, data := some [f a], callback := none }).listeners =
      st0.listeners := by
  have htok : mkId time rand ≠ "" := mkId_ne_empty time rand
  refine ⟨by simp [invoke], by simp [invoke], ?_, ?_, ?_⟩
  · simp [dispatch, hreg, callbackTruthy, htok]
  · simp [invoke, deliver, List.filter_append] <;>
      exact fun a ha h => hfresh (h ▸ ha)
  · simp [invoke, deliver, List.filter_append] <;>
      exact fun a ha h => hfresh (h ▸ ha)

/-- Witness for C1: a handler returning a nested container that holds
`null`, `0` and `""`, round-tripped from a fresh initial state. -/
theorem claim_C1_witness :
    (invoke true ⟨"echo", none, some [Json.num 7]⟩ 3 "0.25" BridgeState.initial).2 =
      .pending (mkId 3 "0.25") ∧
    (invoke true ⟨"echo", none, some [Json.num 7]⟩ 3 "0.25" BridgeState.initial).1.posted =
      BridgeState.initial.posted ++
        [{ command := "echo", data := some [Json.num 7], callback := some (mkId 3 "0.25") }] ∧
    dispatch (fun s => if s = "echo" then
          some (fun args => Json.obj [("k", Json.arr (Json.null :: Json.num 0 :: Json.str "" :: args))])
        else none)
      { command := "echo", data := some [Json.num 7], callback := some (mkId 3 "0.25") } =
      { error := none
        calls := [("echo", [Json.num 7])]
        posts := [{ command := mkId 3 "0.25"
                    data := some [Json.obj [("k", Json.arr [Json.null, Json.num 0, Json.str "", Json.num 7])]]
                    callback := none }] } ∧
    (deliver (invoke true ⟨"echo", none, some [Json.num 7]⟩ 3 "0.25" BridgeState.initial).1
        { command := mkId 3 "0.25"
          data := some [Json.obj [("k", Json.arr [Json.null, Json.num 0, Json.str "", Json.num 7])]]
          callback := none }).resolved =
      BridgeState.initial.resolved ++
        [(mkId 3 "0.25", some (Json.obj [("k", Json.arr [Json.null, Json.num 0, Json.str "", Json.num 7])]))] ∧
    (deliver (invoke true ⟨"echo", none, some [Json.num 7]⟩ 3 "0.25" BridgeState.initial).1
        { command := mkId 3 "0.25"
          data := some [Json.obj [("k", Json.arr [Json.null, Json.num 0, Json.str "", Json.num 7])]]
          callback := none }).listeners =
      BridgeState.initial.listeners :=
  claim_C1_round_trip
    (fun s => if s = "echo" then
        some (fun args => Json.obj [("k", Json.arr (Json.null :: Json.num 0 :: Json.str "" :: args))])
      else none)
    "echo" [Json.num 7] none
    (fun args => Json.obj [("k", Json.arr (Json.null :: Json.num 0 :: Json.str "" :: args))])
    3 "0.25" BridgeState.initial (by simp) (by decide)

/-- C5 counterexample: the token is `Date.now() + '_' + Math.random()`; two
invokes whose clock and random samples coincide mint the same token, so the
pending-listener set holds two entries keyed by one token — uniqueness is
not guaranteed. -/
theorem claim_C5_counterexample :
    ¬ ((invoke true ⟨"hello", none, some []⟩ 5 "0.5"
        (invoke true ⟨"hello", none, some []⟩ 5 "0.5" BridgeState.initial).1).1.listeners).Nodup := by
  decide

/-- C5 amended: the token is built from the call's clock sample and rendered
random sample; two calls whose sample pairs differ are guaranteed distinct
tokens (so pending waiters stay uniquely keyed as long as no two calls share
both samples), but coincident samples duplicate the token. -/
theorem claim_C5_token_distinct_of_sample_distinct (t1 t2 : Nat) (r1 r2 : String)
    (h : t1 ≠ t2 ∨ r1 ≠ r2) : mkId t1 r1 ≠ mkId t2 r2 := by
  intro he
  obtain ⟨ht, hr⟩ := mkId_injective t1 t2 r1 r2 he
  rcases h with h | h
  · exact h ht
  · exact h hr

/-- Witness for the amended C5: differing clock samples give distinct tokens. -/
theorem claim_C5_witness : mkId 0 "0.1" ≠ mkId 1 "0.1" :=
  claim_C5_token_distinct_of_sample_distinct 0 1 "0.1" "0.1" (Or.inl (by decide))

/-- C8 counterexample: `invoke` does not consult the memoized `vsCodeApi`
field — it re-tests `typeof acquireVsCodeApi` at call time.  In an
environment where the function was absent at construction (memoized outcome:
permanent absence) but present at the call, `invoke` takes the real
round-trip path and writes to the channel, disagreeing with the memoized
outcome. -/
theorem claim_C8_counterexample :
    constructVsCodeApi false = none ∧
    (invoke true ⟨"hello", none, some []⟩ 0 "0.1" BridgeState.initial).1.posted ≠ [] ∧
    (invoke true ⟨"hello", none, some []⟩ 0 "0.1" BridgeState.initial).2 ≠
      InvokeOutcome.immediate none := by
  refine ⟨rfl, ?_, ?_⟩ <;> simp [invoke, BridgeState.initial]

/-- C8 amended: acquisition is attempted once, at construction, and the
outcome is memoized in `vsCodeApi`; `postMessage`/`getState`/`setState`
consult that field, but `invoke` re-tests the presence of the acquisition
function at call time.  Its decision therefore agrees with the memoized
outcome whenever that presence is unchanged since construction (in
particular, always, in a static environment). -/
theorem claim_C8_invoke_agrees_when_env_static (envC envI : Bool)
    (opts : InvokeOptions) (time : Nat) (rand : String) (st : BridgeState)
    (h : envI = envC) :
    usesChannelViaField (constructVsCodeApi envC) = envC ∧
    (constructVsCodeApi envC = none →
        invoke envI opts time rand st = (st, .immediate opts.dflt)) ∧
    (constructVsCodeApi envC ≠ none →
        invoke envI opts time rand st =
          ({ st with
              listeners := st.listeners ++ [mkId time rand]
              posted := st.posted ++
                [{ command := opts.command, data := opts.args,
                   callback := some (mkId time rand) }] },
           .pending (mkId time rand))) := by
  subst h
  cases envI <;> simp [usesChannelViaField, constructVsCodeApi, invoke]

/-- Witness for the amended C8 in the host environment. -/
theorem claim_C8_witness :
    usesChannelViaField (constructVsCodeApi true) = true ∧
    (constructVsCodeApi true = none →
        invoke true ⟨"hello", none, some []⟩ 2 "0.3" BridgeState.initial =
          (BridgeState.initial, .immediate none)) ∧
    (constructVsCodeApi true ≠ none →
        invoke true ⟨"hello", none, some []⟩ 2 "0.3" BridgeState.initial =
          ({ BridgeState.initial with
              listeners := BridgeState.initial.listeners ++ [mkId 2 "0.3"]
              posted := BridgeState.initial.posted ++
                [{ command := "hello", data := some [],
                   callback := some (mkId 2 "0.3") }] },
           .pending (mkId 2 "0.3"))) :=
  claim_C8_invoke_agrees_when_env_static true true ⟨"hello", none, some []⟩ 2 "0.3"
    BridgeState.initial rfl

/-! ## Correctness of the JSON model pair -/

theorem takeDigits_munch (ds rest : List Char) (hds : ∀ c ∈ ds, c.isDigit = true)
    (hrest : ∀ c, rest.head? = some c → c.isDigit = false) :
    takeDigits (ds ++ rest) = (ds, rest) := by
  induction ds with
  | nil =>
    simp only [List.nil_append]
    cases rest with
    | nil => rfl
    | cons c cs =>
      have hc : c.isDigit = false := hrest c rfl
      simp [takeDigits, hc]
  | cons c cs ih =>
    have hc : c.isDigit = true := hds c (by simp)
    have ih2 := ih (fun x hx => hds x (by simp [hx]))
    simp [takeDigits, hc, ih2]

theorem parseStringBody_escape (s rest : List Char) :
    parseStringBody (escapeChars s ++ '"' :: rest) = some (s, rest) := by
  induction s with
  | nil =>
    rw [show escapeChars [] ++ '"' :: rest = '"' :: rest from by simp [escapeChars]]
    rw [parseStringBody.eq_def]
    simp
  | cons c cs ih =>
    by_cases h1 : c = '"'
    · subst h1
      rw [show escapeChars ('"' :: cs) ++ '"' :: rest =
          '\\' :: '"' :: (escapeChars cs ++ '"' :: rest) from by simp [escapeChars, escapeChar]]
      rw [parseStringBody.eq_def]
      simp [unescapeChar, ih]
    · by_cases h2 : c = '\\'
      · subst h2
        rw [show escapeChars ('\\' :: cs) ++ '"' :: rest =
            '\\' :: '\\' :: (escapeChars cs ++ '"' :: rest) from by simp [escapeChars, escapeChar]]
        rw [parseStringBody.eq_def]
        simp [unescapeChar, ih]
      · by_cases h3 : c = '\n'
        · subst h3
          rw [show escapeChars ('\n' :: cs) ++ '"' :: rest =
              '\\' :: 'n' :: (escapeChars cs ++ '"' :: rest) from by simp [escapeChars, escapeChar]]
          rw [parseStringBody.eq_def]
          simp [unescapeChar, ih]
        · by_cases h4 : c = '\t'
          · subst h4
            rw [show escapeChars ('\t' :: cs) ++ '"' :: rest =
                '\\' :: 't' :: (escapeChars cs ++ '"' :: rest) from by simp [escapeChars, escapeChar]]
            rw [parseStringBody.eq_def]
            simp [unescapeChar, ih]
          · by_cases h5 : c = '\r'
            · subst h5
              rw [show escapeChars ('\r' :: cs) ++ '"' :: rest =
                  '\\' :: 'r' :: (escapeChars cs ++ '"' :: rest) from by simp [escapeChars, escapeChar]]
              rw [parseStringBody.eq_def]
              simp [unescapeChar, ih]
            · rw [show escapeChars (c :: cs) ++ '"' :: rest =
                  c :: (escapeChars cs ++ '"' :: rest) from by
                simp [escapeChars, escapeChar, h1, h2, h3, h4, h5]]
              rw [parseStringBody.eq_def]
              simp [h1, h2, ih]

theorem isDigit_ne_specials (c : Char) (h : c.isDigit = true) :
    c ≠ 'n' ∧ c ≠ 't' ∧ c ≠ 'f' ∧ c ≠ '"' ∧ c ≠ '[' ∧ c ≠ '{' ∧ c ≠ '-' ∧
    c ≠ ']' ∧ c ≠ '}' ∧ c ≠ ',' ∧ c ≠ ':' := by
  refine ⟨?_, ?_, ?_, ?_, ?_, ?_, ?_, ?_, ?_, ?_, ?_⟩ <;>
    (intro he; subst he; exact absurd h (by decide))

theorem jsize_pos (v : Json) : 1 ≤ jsize v := by
  cases v <;> simp [jsize]

theorem stringifyChars_head (v : Json) :
    ∃ c cs, stringifyChars v = c :: cs ∧ c ≠ ']' ∧ c ≠ '}' := by
  cases v with
  | null =>
    exact ⟨'n', ['u', 'l', 'l'], by simp [stringifyChars, litNull], by decide, by decide⟩
  | bool b =>
    cases b with
    | true =>
      exact ⟨'t', ['r', 'u', 'e'], by simp [stringifyChars, litTrue], by decide, by decide⟩
    | false =>
      exact ⟨'f', ['a', 'l', 's', 'e'], by simp [stringifyChars, litFalse], by decide,
        by decide⟩
  | num n =>
    by_cases hn : n < 0
    · exact ⟨'-', natToDigits n.natAbs, by simp [stringifyChars, intToDigits, hn],
        by decide, by decide⟩
    · cases hnd : natToDigits n.toNat with
      | nil => exact absurd hnd (natToDigits_ne_nil _)
      | cons c cs =>
        have hc : c.isDigit = true := natToDigits_all_digits n.toNat c (by rw [hnd]; simp)
        obtain ⟨-, -, -, -, -, -, -, h8, h9, -, -⟩ := isDigit_ne_specials c hc
        exact ⟨c, cs, by simp [stringifyChars, intToDigits, hn, hnd], h8, h9⟩
  | str s =>
    exact ⟨'"', escapeChars s.data ++ ['"'], by simp [stringifyChars], by decide, by decide⟩
  | arr xs =>
    exact ⟨'[', stringifyItems xs ++ [']'], by simp [stringifyChars], by decide, by decide⟩
  | obj kvs =>
    exact ⟨'{', stringifyFields kvs ++ ['}'], by simp [stringifyChars], by decide, by decide⟩

theorem stringifyItems_cons (x : Json) (xs : List Json) :
    ∃ t, stringifyItems (x :: xs) = stringifyChars x ++ t := by
  cases xs with
  | nil => exact ⟨[], by simp [stringifyItems]⟩
  | cons y ys => exact ⟨',' :: stringifyItems (y :: ys), by simp [stringifyItems]⟩

theorem stringifyFields_cons (k : String) (v : Json) (kvs : List (String × Json)) :
    ∃ t, stringifyFields ((k, v) :: kvs) = '"' :: t := by
  cases kvs with
  | nil => exact ⟨escapeChars k.data ++ '"' :: ':' :: stringifyChars v, by simp [stringifyFields]⟩
  | cons e2 es =>
    exact ⟨(escapeChars k.data ++ '"' :: ':' :: stringifyChars v) ++
      ',' :: stringifyFields (e2 :: es), by simp [stringifyFields]⟩

/-- The reader inverts the renderer: one value followed by a non-digit-headed
remainder, a nonempty array body, and a nonempty object body. -/
theorem parse_stringify (fuel : Nat) :
    (∀ v rest, jsize v ≤ fuel → (∀ c, rest.head? = some c → c.isDigit = false) →
      parseVal fuel (stringifyChars v ++ rest) = some (v, rest)) ∧
    (∀ xs rest, xs ≠ [] → jsizeItems xs ≤ fuel →
      parseItems fuel (stringifyItems xs ++ ']' :: rest) = some (xs, rest)) ∧
    (∀ kvs rest, kvs ≠ [] → jsizeFields kvs ≤ fuel →
      parseFields fuel (stringifyFields kvs ++ '}' :: rest) = some (kvs, rest)) := by
  induction fuel with
  | zero =>
    refine ⟨?_, ?_, ?_⟩
    · intro v rest hle _
      exact absurd hle (by have := jsize_pos v; omega)
    · intro xs rest hne hle
      cases xs with
      | nil => exact absurd rfl hne
      | cons x xs' =>
        simp [jsizeItems] at hle
    · intro kvs rest hne hle
      cases kvs with
      | nil => exact absurd rfl hne
      | cons e kvs' =>
        obtain ⟨k, v⟩ := e
        simp [jsizeFields] at hle
  | succ f ih =>
    obtain ⟨ihV, ihI, ihF⟩ := ih
    refine ⟨?_, ?_, ?_⟩
    · intro v rest hle hrest
      cases v with
      | null =>
        rw [show stringifyChars .null ++ rest = 'n' :: 'u' :: 'l' :: 'l' :: rest from by
          simp [stringifyChars, litNull]]
        rw [parseVal.eq_def]
        simp
      | bool b =>
        cases b with
        | true =>
          rw [show stringifyChars (.bool true) ++ rest = 't' :: 'r' :: 'u' :: 'e' :: rest
              from by simp [stringifyChars, litTrue]]
          rw [parseVal.eq_def]
          simp
        | false =>
          rw [show stringifyChars (.bool false) ++ rest =
              'f' :: 'a' :: 'l' :: 's' :: 'e' :: rest from by simp [stringifyChars, litFalse]]
          rw [parseVal.eq_def]
          simp
      | num n =>
        by_cases hn : n < 0
        · have hmunch := takeDigits_munch (natToDigits n.natAbs) rest
            (natToDigits_all_digits _) hrest
          have hnn := natToDigits_ne_nil n.natAbs
          have hval : -((digitsToNat (natToDigits n.natAbs) : Int)) = n := by
            rw [digitsToNat_natToDigits]
            omega
          rw [show stringifyChars (.num n) ++ rest =
              '-' :: (natToDigits n.natAbs ++ rest) from by
            simp [stringifyChars, intToDigits, hn]]
          rw [parseVal.eq_def]
          simp [parseNum, hmunch, hnn, hval]
        · cases hnd : natToDigits n.toNat with
          | nil => exact absurd hnd (natToDigits_ne_nil _)
          | cons c cs =>
            have hc : c.isDigit = true := natToDigits_all_digits n.toNat c (by rw [hnd]; simp)
            obtain ⟨h1, h2, h3, h4, h5, h6, h7, -, -, -, -⟩ := isDigit_ne_specials c hc
            have hmunch := takeDigits_munch (natToDigits n.toNat) rest
              (natToDigits_all_digits _) hrest
            have hval : ((digitsToNat (natToDigits n.toNat) : Int)) = n := by
              rw [digitsToNat_natToDigits]
              omega
            rw [hnd] at hmunch hval
            rw [List.cons_append] at hmunch
            rw [show stringifyChars (.num n) ++ rest = c :: (cs ++ rest) from by
              simp [stringifyChars, intToDigits, hn, hnd]]
            rw [parseVal.eq_def]
            simp [h1, h2, h3, h4, h5, h6, parseNum, h7, hmunch, hval]
      | str s =>
        rw [show stringifyChars (.str s) ++ rest =
            '"' :: (escapeChars s.data ++ '"' :: rest) from by simp [stringifyChars]]
        rw [parseVal.eq_def]
        simp [parseStringBody_escape]
      | arr xs =>
        cases xs with
        | nil =>
          rw [show stringifyChars (.arr []) ++ rest = '[' :: ']' :: rest from by
            simp [stringifyChars, stringifyItems]]
          rw [parseVal.eq_def]
          simp
        | cons x xs' =>
          obtain ⟨c0, cs0, hx, hne1, hne2⟩ := stringifyChars_head x
          obtain ⟨t, ht⟩ := stringifyItems_cons x xs'
          have hsize : jsizeItems (x :: xs') ≤ f := by
            simp [jsize] at hle
            omega
          have hitems := ihI (x :: xs') rest (by simp) hsize
          have hh1 : (stringifyItems (x :: xs')).head? ≠ some ']' := by
            rw [ht, hx]
            simp [hne1]
          have hh2 : stringifyItems (x :: xs') ≠ [] := by
            rw [ht, hx]
            simp
          rw [show stringifyChars (.arr (x :: xs')) ++ rest =
              '[' :: (stringifyItems (x :: xs') ++ ']' :: rest) from by simp [stringifyChars]]
          rw [parseVal.eq_def]
          simp [hitems, hh1, hh2]
      | obj kvs =>
        cases kvs with
        | nil =>
          rw [show stringifyChars (.obj []) ++ rest = '{' :: '}' :: rest from by
            simp [stringifyChars, stringifyFields]]
          rw [parseVal.eq_def]
          simp
        | cons e kvs' =>
          obtain ⟨k, v⟩ := e
          obtain ⟨t, ht⟩ := stringifyFields_cons k v kvs'
          have hsize : jsizeFields ((k, v) :: kvs') ≤ f := by
            simp [jsize] at hle
            omega
          have hf := ihF ((k, v) :: kvs') rest (by simp) hsize
          have hh1 : (stringifyFields ((k, v) :: kvs')).head? ≠ some '}' := by
            rw [ht]
            simp
          have hh2 : stringifyFields ((k, v) :: kvs') ≠ [] := by
            rw [ht]
            simp
          rw [show stringifyChars (.obj ((k, v) :: kvs')) ++ rest =
              '{' :: (stringifyFields ((k, v) :: kvs') ++ '}' :: rest) from by
            simp [stringifyChars]]
          rw [parseVal.eq_def]
          simp [hf, hh1, hh2]
    · intro xs rest hne hle
      cases xs with
      | nil => exact absurd rfl hne
      | cons x xs' =>
        have hx : jsize x ≤ f := by
          simp [jsizeItems] at hle
          omega
        cases xs' with
        | nil =>
          have hv := ihV x (']' :: rest) hx (by intro c hc; simp at hc; subst hc; decide)
          rw [show stringifyItems [x] ++ ']' :: rest = stringifyChars x ++ ']' :: rest from by
            simp [stringifyItems]]
          rw [parseItems.eq_def]
          simp [hv]
        | cons y ys =>
          have hys : jsizeItems (y :: ys) ≤ f := by
            simp only [jsizeItems] at hle ⊢
            omega
          have hv := ihV x (',' :: (stringifyItems (y :: ys) ++ ']' :: rest)) hx
            (by intro c hc; simp at hc; subst hc; decide)
          have hi := ihI (y :: ys) rest (by simp) hys
          rw [show stringifyItems (x :: y :: ys) ++ ']' :: rest =
              stringifyChars x ++ ',' :: (stringifyItems (y :: ys) ++ ']' :: rest) from by
            simp [stringifyItems]]
          rw [parseItems.eq_def]
          simp [hv, hi]
    · intro kvs rest hne hle
      cases kvs with
      | nil => exact absurd rfl hne
      | cons e kvs' =>
        obtain ⟨k, v⟩ := e
        have hv : jsize v ≤ f := by
          simp [jsizeFields] at hle
          omega
        cases kvs' with
        | nil =>
          have hval := ihV v ('}' :: rest) hv (by intro c hc; simp at hc; subst hc; decide)
          rw [show stringifyFields [(k, v)] ++ '}' :: rest =
              '"' :: (escapeChars k.data ++ '"' :: (':' :: (stringifyChars v ++ '}' :: rest)))
              from by simp [stringifyFields]]
          rw [parseFields.eq_def]
          simp [parseStringBody_escape, hval]
        | cons e2 es =>
          have hes : jsizeFields (e2 :: es) ≤ f := by
            simp only [jsizeFields] at hle ⊢
            omega
          have hval := ihV v (',' :: (stringifyFields (e2 :: es) ++ '}' :: rest)) hv
            (by intro c hc; simp at hc; subst hc; decide)
          have hf := ihF (e2 :: es) rest (by simp) hes
          rw [show stringifyFields ((k, v) :: e2 :: es) ++ '}' :: rest =
              '"' :: (escapeChars k.data ++ '"' :: (':' :: (stringifyChars v ++
                ',' :: (stringifyFields (e2 :: es) ++ '}' :: rest)))) from by
            simp [stringifyFields]]
          rw [parseFields.eq_def]
          simp [parseStringBody_escape, hval, hf]

/-- The reader's fuel need never exceeds the rendering's length. -/
theorem jsize_le_length (fuel : Nat) :
    (∀ v, jsize v ≤ fuel → jsize v ≤ (stringifyChars v).length) ∧
    (∀ xs, jsizeItems xs ≤ fuel → jsizeItems xs ≤ (stringifyItems xs).length + 1) ∧
    (∀ kvs, jsizeFields kvs ≤ fuel → jsizeFields kvs ≤ (stringifyFields kvs).length + 1) := by
  induction fuel with
  | zero =>
    refine ⟨?_, ?_, ?_⟩
    · intro v h
      exact absurd h (by have := jsize_pos v; omega)
    · intro xs h
      cases xs with
      | nil => simp [jsizeItems]
      | cons x xs' => simp [jsizeItems] at h
    · intro kvs h
      cases kvs with
      | nil => simp [jsizeFields]
      | cons e es =>
        obtain ⟨k, v⟩ := e
        simp [jsizeFields] at h
  | succ f ih =>
    obtain ⟨ihV, ihI, ihF⟩ := ih
    refine ⟨?_, ?_, ?_⟩
    · intro v hle
      cases v with
      | null => simp [jsize, stringifyChars, litNull]
      | bool b => cases b <;> simp [jsize, stringifyChars, litTrue, litFalse]
      | num n =>
        by_cases hn : n < 0
        · simp [jsize, stringifyChars, intToDigits, hn]
        · cases hnd : natToDigits n.toNat with
          | nil => exact absurd hnd (natToDigits_ne_nil _)
          | cons c cs => simp [jsize, stringifyChars, intToDigits, hn, hnd]
      | str s => simp [jsize, stringifyChars]
      | arr xs =>
        cases xs with
        | nil => simp [jsize, jsizeItems, stringifyChars, stringifyItems]
        | cons x xs' =>
          have h1 : jsizeItems (x :: xs') ≤ f := by
            simp only [jsize] at hle
            omega
          have h2 := ihI (x :: xs') h1
          simp [jsize, stringifyChars]
          omega
      | obj kvs =>
        cases kvs with
        | nil => simp [jsize, jsizeFields, stringifyChars, stringifyFields]
        | cons e kvs' =>
          obtain ⟨k, v⟩ := e
          have h1 : jsizeFields ((k, v) :: kvs') ≤ f := by
            simp only [jsize] at hle
            omega
          have h2 := ihF ((k, v) :: kvs') h1
          simp [jsize, stringifyChars]
          omega
    · intro xs hle
      cases xs with
      | nil => simp [jsizeItems]
      | cons x xs' =>
        have hx : jsize x ≤ f := by
          simp only [jsizeItems] at hle
          omega
        have h1 := ihV x hx
        cases xs' with
        | nil =>
          simp only [jsizeItems, stringifyItems]
          omega
        | cons y ys =>
          have hys : jsizeItems (y :: ys) ≤ f := by
            simp only [jsizeItems] at hle ⊢
            omega
          have h2 := ihI (y :: ys) hys
          simp only [jsizeItems, stringifyItems, List.length_append, List.length_cons] at h2 ⊢
          omega
    · intro kvs hle
      cases kvs with
      | nil => simp [jsizeFields]
      | cons e kvs' =>
        obtain ⟨k, v⟩ := e
        have hv : jsize v ≤ f := by
          simp only [jsizeFields] at hle
          omega
        have h1 := ihV v hv
        cases kvs' with
        | nil =>
          simp only [jsizeFields, stringifyFields, List.length_cons, List.length_append]
          omega
        | cons e2 es =>
          have hes : jsizeFields (e2 :: es) ≤ f := by
            simp only [jsizeFields] at hle ⊢
            omega
          have h2 := ihF (e2 :: es) hes
          simp only [jsizeFields, stringifyFields, List.length_cons, List.length_append] at h2 ⊢
          omega

theorem jsonStringify_ne_empty (v : Json) : jsonStringify v ≠ "" := by
  obtain ⟨c, cs, hx, -, -⟩ := stringifyChars_head v
  intro h
  have hd : stringifyChars v = [] := congrArg String.data h
  rw [hx] at hd
  simp at hd

/-- Round trip of the platform JSON model. -/
theorem jsonParse_jsonStringify (v : Json) : jsonParse (jsonStringify v) = some v := by
  have hb := (jsize_le_length (jsize v)).1 v le_rfl
  have hp := (parse_stringify ((stringifyChars v).length + 1)).1 v [] (by omega)
    (by intro c hc; simp at hc)
  rw [List.append_nil] at hp
  simp [jsonParse, jsonStringify, hp]

theorem getItem_setItem (ls : LocalStorage) (k v : String) :
    (ls.setItem k v).getItem k = some v := by
  simp [LocalStorage.setItem, LocalStorage.getItem]

/-- C9: fallback-store round trip.  With no host handle (`vsCodeApi`
absent), `setState` writes the JSON encoding of the value to the local
store and leaves the bridge state untouched (nothing is posted, no listener
is registered), and a subsequent `getState` of the same key — equally
without touching the bridge — decodes the stored string and returns a value
equal to the one written, for every key and JSON-serializable value. -/
theorem claim_C9_fallback_roundtrip (bst : BridgeState) (ls : LocalStorage)
    (hasAcq1 hasAcq2 : Bool) (t1 t2 : Nat) (r1 r2 : String) (k : String) (v : Json) :
    setState none hasAcq1 t1 r1 bst ls k v = (bst, ls.setItem k (jsonStringify v)) ∧
    getState none hasAcq2 t2 r2 bst (ls.setItem k (jsonStringify v)) k =
      (bst, .value (some v)) := by
  refine ⟨rfl, ?_⟩
  have h1 : (ls.setItem k (jsonStringify v)).getItem k = some (jsonStringify v) :=
    getItem_setItem ls k (jsonStringify v)
  simp [getState, getStateFallback, h1, jsonStringify_ne_empty v, jsonParse_jsonStringify v]
